import Mathlib

/-!
Verification of the memcp memory-service core against its specification.

The Rust source is shallowly embedded:
* `Memory` mirrors the `memories` row / `store::Memory` struct; `TIMESTAMPTZ`
  values are modelled as epoch seconds (`Int`).
* f64 arithmetic is modelled over `ℚ` (for score bookkeeping, where only
  field operations occur) and over `ℝ` (for the FSRS power-law formula).
* SQL queries are modelled as list transformations over an explicit database
  state; PostgreSQL built-ins that are external to this repository
  (`ts_rank_cd`, `plainto_tsquery` matching, the pgvector `<=>` distance)
  are abstract parameters of the corresponding search functions, while the
  WHERE/ORDER BY/LIMIT structure written in the repository's SQL strings is
  modelled concretely.
* fallible operations return `Except MemcpErrorM`.
-/

namespace Memcp

/-- Typed storage errors, from `src/errors.rs` (`NotFound`, `Validation{message,field}`,
`Storage{detail}` are the variants the claims mention). -/
inductive MemcpErrorM where
  | notFound (id : String)
  | validation (message : String) (field : Option String)
  | storage (detail : String)
deriving DecidableEq, Repr

/-- The `Memory` record, from `src/store/mod.rs` / the `memories` table.
Timestamps are epoch seconds. -/
structure Memory where
  id : String
  content : String
  type_hint : String
  source : String
  tags : Option (List String)
  created_at : Int
  updated_at : Int
  last_accessed_at : Option Int
  access_count : Int
  embedding_status : String
  extracted_entities : Option (List String)
  extracted_facts : Option (List String)
  extraction_status : String
  is_consolidated_original : Bool
  consolidated_into : Option String
deriving DecidableEq, Repr

/- ------------------------------------------------------------------ -/
/- C10 : search_memory effective limit (src/server.rs line 681)        -/
/- ------------------------------------------------------------------ -/

/-- Rust `u32::clamp(self, lo, hi)`: `if self < lo { lo } else if self > hi { hi } else { self }`. -/
def natClamp (x lo hi : Nat) : Nat :=
  if x < lo then lo else if x > hi then hi else x

/-- Effective search limit, from `src/server.rs` line 681:
`let limit = params.limit.unwrap_or(10).clamp(1, 100);`.
`SearchMemoryParams.limit` is `Option<u32>`, hence `Option Nat`. -/
def effective_search_limit (limit : Option Nat) : Nat :=
  natClamp (limit.getD 10) 1 100

/- ------------------------------------------------------------------ -/
/- C9 : reinforce_memory rating normalization                          -/
/- (src/server.rs lines 1002-1017, src/store/postgres.rs 915-921)      -/
/- ------------------------------------------------------------------ -/

/-- Rating normalization, from `src/server.rs` lines 1003-1004:
`let rating = params.rating.as_deref().unwrap_or("good");`
`let rating = if rating == "easy" { "easy" } else { "good" };`. -/
def normalize_rating (rating : Option String) : String :=
  let r := rating.getD "good"
  if r = "easy" then "easy" else "good"

/-- Stability multiplier chosen inside `reinforce_salience`
(`src/store/postgres.rs` line 917):
`let multiplier = if rating == "easy" { 2.0 } else { 1.5 };`. -/
def rating_multiplier (rating : String) : ℚ :=
  if rating = "easy" then 2 else 3 / 2

/-- Tool-surface gate of `reinforce_memory` (`src/server.rs` lines 990-1017):
after the existence check succeeds, the rating is normalized and passed on;
no rating value can produce an error. Returns the rating actually used. -/
def reinforce_memory_gate (db : List Memory) (id : String) (rating : Option String) :
    Except MemcpErrorM String :=
  match db.find? (fun m => m.id = id) with
  | none => .error (.notFound id)
  | some _ => .ok (normalize_rating rating)

/- ------------------------------------------------------------------ -/
/- C8 : all-zero search weights fail validation                        -/
/- (src/server.rs lines 763-789)                                       -/
/- ------------------------------------------------------------------ -/

/-- Per-leg weight-to-k conversion, from `src/server.rs` lines 767-781:
`Some(w) if w == 0.0 => None; Some(w) => Some(base_k / w); None => Some(base_k)`. -/
def weight_to_k (w : Option ℚ) (base_k : ℚ) : Option ℚ :=
  match w with
  | some w => if w = 0 then none else some (base_k / w)
  | none => some base_k

/-- Leg-enablement gate of `search_memory` (`src/server.rs` lines 763-789):
converts the three weights to per-leg k values (bases 60 / 60 / 40) and fails
with `Validation` when all three legs are disabled; `hybrid_search` is only
reached (with those k values) on the `ok` branch. -/
def search_leg_plan (bm25_weight vector_weight symbolic_weight : Option ℚ) :
    Except MemcpErrorM (Option ℚ × Option ℚ × Option ℚ) :=
  let bm25_k := weight_to_k bm25_weight 60
  let vector_k := weight_to_k vector_weight 60
  let symbolic_k := weight_to_k symbolic_weight 40
  if bm25_k.isNone && vector_k.isNone && symbolic_k.isNone then
    .error (.validation
      "At least one search path must be enabled (bm25_weight, vector_weight, or symbolic_weight must be non-zero)"
      none)
  else
    .ok (bm25_k, vector_k, symbolic_k)

/- ------------------------------------------------------------------ -/
/- C6 : store validation and initial field values                      -/
/- (src/server.rs lines 243-260, src/store/postgres.rs 196-238)        -/
/- ------------------------------------------------------------------ -/

/-- Parameters of the `store_memory` tool (`src/server.rs` lines 77-86). -/
structure StoreMemoryParams where
  content : String
  type_hint : Option String
  source : Option String
  tags : Option (List String)

/-- Rust `str::trim`: drop whitespace from both ends. -/
def trim_chars (l : List Char) : List Char :=
  ((l.dropWhile Char.isWhitespace).reverse.dropWhile Char.isWhitespace).reverse

/-- The `store_memory` tool followed by `PostgresMemoryStore::store`
(`src/server.rs` lines 243-267 and `src/store/postgres.rs` lines 196-238):
reject content that is empty after trim (`params.content.trim().is_empty()`)
before any insert happens; otherwise insert a fresh row with
`access_count = 0` and both statuses `"pending"`.
`new_id` stands for `Uuid::new_v4()` and `now` for `Utc::now()`.
Returns the (possibly updated) database together with the call result. -/
def store_memory_model (db : List Memory) (p : StoreMemoryParams) (new_id : String)
    (now : Int) : List Memory × Except MemcpErrorM Memory :=
  if (trim_chars p.content.toList).isEmpty then
    (db, .error (.validation "Field content is required and cannot be empty" (some "content")))
  else
    let m : Memory :=
      { id := new_id
        content := p.content
        type_hint := p.type_hint.getD "fact"
        source := p.source.getD "default"
        tags := p.tags
        created_at := now
        updated_at := now
        last_accessed_at := none
        access_count := 0
        embedding_status := "pending"
        extracted_entities := none
        extracted_facts := none
        extraction_status := "pending"
        is_consolidated_original := false
        consolidated_into := none }
    (db ++ [m], .ok m)

/- ------------------------------------------------------------------ -/
/- C7 : update frame behaviour (src/store/postgres.rs lines 260-338)   -/
/- ------------------------------------------------------------------ -/

/-- Partial-update patch (`UpdateMemory` in `src/store/mod.rs`). -/
structure UpdateMemoryInput where
  content : Option String
  type_hint : Option String
  source : Option String
  tags : Option (List String)

/-- `PostgresMemoryStore::update` (`src/store/postgres.rs` lines 260-338):
verify existence, then run an UPDATE whose SET clause always assigns
`updated_at = now` (line 279: "updated_at is always set") and assigns exactly
the patch fields that are present; every other column keeps its value.
The updated row is re-fetched and returned. -/
def update_memory_model (db : List Memory) (id : String) (input : UpdateMemoryInput)
    (now : Int) : List Memory × Except MemcpErrorM Memory :=
  match db.find? (fun m => m.id = id) with
  | none => (db, .error (.notFound id))
  | some old =>
    let updated : Memory :=
      { old with
        updated_at := now
        content := input.content.getD old.content
        type_hint := input.type_hint.getD old.type_hint
        source := input.source.getD old.source
        tags := match input.tags with
          | some t => some t
          | none => old.tags }
    (db.map (fun m => if m.id = id then updated else m), .ok updated)

/- ------------------------------------------------------------------ -/
/- C5 : Reciprocal Rank Fusion (src/search/mod.rs lines 51-99)         -/
/- ------------------------------------------------------------------ -/

/-- One leg's pass of `rrf_fuse` (`src/search/mod.rs` lines 65-76): for each
`(id, rank)` pair the leg contributes `1.0 / (k + rank)` to the score map entry
of `id` (`*scores.entry(id.clone()).or_default() += 1.0 / (k + rank)`), the
map defaulting to 0. The map is modelled as a function `String → ℚ`. -/
def leg_accumulate (k : ℚ) (ranks : List (String × Int)) (scores : String → ℚ) :
    String → ℚ :=
  ranks.foldl
    (fun acc p => fun i => if i = p.1 then acc i + 1 / (k + (p.2 : ℚ)) else acc i)
    scores

/-- Fused RRF score map of `rrf_fuse` (`src/search/mod.rs` lines 62-76): the
three legs accumulate into one map starting from the empty (all-zero) map.
The subsequent sort by score descending and the `match_source` labels do not
affect the scores and are not needed by the fused-score claims. -/
def rrf_scores (bm25_ranks vector_ranks symbolic_ranks : List (String × Int))
    (bm25_k vector_k symbolic_k : ℚ) : String → ℚ :=
  leg_accumulate symbolic_k symbolic_ranks
    (leg_accumulate vector_k vector_ranks
      (leg_accumulate bm25_k bm25_ranks (fun _ => 0)))

/-- Total contribution of one leg's list to a given id: the sum of
`1 / (k + rank)` over the occurrences of that id in the list. -/
def leg_sum (k : ℚ) (ranks : List (String × Int)) (i : String) : ℚ :=
  ((ranks.filter (fun p => p.1 = i)).map (fun p => 1 / (k + (p.2 : ℚ)))).sum

/- ------------------------------------------------------------------ -/
/- C2 : FSRS retrievability and reinforcement                          -/
/- (src/search/salience.rs 78-86, src/store/postgres.rs 892-954)       -/
/- ------------------------------------------------------------------ -/

/-- FSRS retrievability, from `src/search/salience.rs` lines 78-86:
`R(t, S) = (1 + F * t / S)^C` with `F = 19/81`, `C = -0.5`, the result
clamped to `[0, 1]`, and `0` when `stability <= 0`. f64 arithmetic is
modelled over `ℝ` (`powf` as `Real.rpow`), `x.clamp(0.0, 1.0)` as
`min 1 (max 0 x)`. -/
noncomputable def fsrs_retrievability (stability_days days_elapsed : ℝ) : ℝ :=
  if stability_days ≤ 0 then 0
  else
    min 1 (max 0 ((1 + (19 / 81) * days_elapsed / stability_days) ^ (-(1 / 2) : ℝ)))

/-- Stability update of `reinforce_salience`
(`src/store/postgres.rs` lines 901-921), with the elapsed time since
`last_reinforced_at` passed in as `elapsed_days` (the code computes it as
`(duration.num_seconds() as f64 / 86_400.0).max(0.0)`, or 365.0 when never
reinforced; the `.max(0.0)` is kept here):
`new_stability = stability * (1 + (1 - R) * multiplier)` with multiplier 2.0
for rating `"easy"` and 1.5 otherwise, clamped to `[0.1, 36500.0]`. -/
noncomputable def reinforce_new_stability (stability elapsed_days : ℝ)
    (rating : String) : ℝ :=
  let days_elapsed := max elapsed_days 0
  let retrievability := fsrs_retrievability stability days_elapsed
  let multiplier : ℝ := if rating = "easy" then 2 else 1.5
  let new_stability := stability * (1 + (1 - retrievability) * multiplier)
  min 36500 (max 0.1 new_stability)

/-- Stability increase produced by one `reinforce_salience` call
(new stability minus the stability it started from). -/
noncomputable def reinforce_stability_delta (stability elapsed_days : ℝ)
    (rating : String) : ℝ :=
  reinforce_new_stability stability elapsed_days rating - stability

/- ------------------------------------------------------------------ -/
/- C1 : search legs and get (src/store/postgres.rs)                    -/
/- ------------------------------------------------------------------ -/

/-- Assign 1-based `ROW_NUMBER()` ranks to an ordered id list. -/
def with_ranks : List String → Int → List (String × Int)
  | [], _ => []
  | i :: rest, r => (i, r) :: with_ranks rest (r + 1)

/-- Order a list by a score, highest score first (SQL `ORDER BY score DESC`;
ties are broken by input order, standing in for PostgreSQL's unspecified
tie order). -/
def sort_by_desc {α β : Type} [LinearOrder β] (score : α → β) (l : List α) : List α :=
  List.insertionSort (fun a b => score b ≤ score a) l

/-- Order a list by a score, lowest score first (SQL `ORDER BY expr ASC`). -/
def sort_by_asc {α β : Type} [LinearOrder β] (score : α → β) (l : List α) : List α :=
  List.insertionSort (fun a b => score a ≤ score b) l

/-- The BM25 leg `search_bm25` (`src/store/postgres.rs` lines 1334-1378), both
backends: rows whose content matches the query (`tsMatch`, standing for the
external `to_tsvector @@ plainto_tsquery` / ParadeDB `@@@` test) and with
`is_consolidated_original = FALSE` are ranked by the external relevance score
(`tsRank`, standing for `ts_rank_cd` / `paradedb.score`) descending, numbered
from 1, and truncated to `limit`. -/
def search_bm25_model (db : List Memory) (query : String) (limit : Int)
    (tsMatch : String → String → Bool) (tsRank : String → String → ℚ) :
    List (String × Int) :=
  let matched := db.filter (fun m => tsMatch m.content query && !m.is_consolidated_original)
  let ordered := sort_by_desc (fun m => tsRank m.content query) matched
  (with_ranks (ordered.map Memory.id) 1).take limit.toNat

/-- Does `text` start with `pat`? -/
def starts_with_chars : List Char → List Char → Bool
  | _, [] => true
  | [], _ :: _ => false
  | c :: text, d :: pat => c == d && starts_with_chars text pat

/-- Does `pat` occur as a contiguous run anywhere in `text`? -/
def has_infix_chars (text pat : List Char) : Bool :=
  match text with
  | [] => starts_with_chars [] pat
  | _ :: rest => starts_with_chars text pat || has_infix_chars rest pat

/-- Case-insensitive substring test, modelling `column ILIKE '%query%'`. -/
def ilike_contains (haystack needle : String) : Bool :=
  has_infix_chars (haystack.toList.map Char.toLower) (needle.toList.map Char.toLower)

/-- Symbolic match score (`src/store/postgres.rs` lines 1289-1296): tags
containment weighs 3, extracted entity and fact containment 2 each,
`type_hint`/`source` ILIKE 1 each. JSONB `@>` containment of `[query]` on a
NULL column is not true, hence `none` scores 0. -/
def symbolic_score (m : Memory) (query : String) : Int :=
  (if (match m.tags with | some t => t.contains query | none => false) then 3 else 0)
    + (if (match m.extracted_entities with | some t => t.contains query | none => false) then 2 else 0)
    + (if (match m.extracted_facts with | some t => t.contains query | none => false) then 2 else 0)
    + (if ilike_contains m.type_hint query then 1 else 0)
    + (if ilike_contains m.source query then 1 else 0)

/-- The symbolic leg `search_symbolic` (`src/store/postgres.rs` lines
1278-1324): rows with `is_consolidated_original = FALSE` and at least one of
the five match conditions (equivalently `score > 0`, filtered again by the
outer `WHERE score > 0`), ranked by score descending, numbered from 1,
truncated to `limit`. -/
def search_symbolic_model (db : List Memory) (query : String) (limit : Int) :
    List (String × Int) :=
  let matched := db.filter (fun m =>
    !m.is_consolidated_original && decide (0 < symbolic_score m query))
  let ordered := sort_by_desc (fun m => symbolic_score m query) matched
  (with_ranks (ordered.map Memory.id) 1).take limit.toNat

/-- One row of `memory_embeddings` as far as search is concerned; the vector
payload itself only enters through the abstract distance parameter. -/
structure EmbeddingRow where
  memory_id : String
  is_current : Bool
deriving DecidableEq, Repr

/-- A `search_similar` hit (`SearchHit` in `src/store/mod.rs`). -/
structure SearchHitM where
  memory : Memory
  similarity : ℚ
deriving DecidableEq, Repr

/-- The filter argument of `search_similar` (`SearchFilter` in
`src/store/mod.rs`), with the query embedding abstracted into `cosDist`. -/
structure SearchFilterM where
  limit : Int
  offset : Int
  created_after : Option Int
  created_before : Option Int
  tags : Option (List String)

/-- The vector leg `search_similar` (`src/store/postgres.rs` lines 983-1135):
memories joined with their embedding rows, keeping rows with
`is_current = true`, `embedding_status = 'complete'`, the optional
created-at/tags filters, and `is_consolidated_original = FALSE`; ordered by
cosine distance ascending (`cosDist`, standing for `me.embedding <=> $1`),
paged by `LIMIT/OFFSET`, similarity reported as `1 - distance` clamped to
`[0, 1]`. -/
def search_similar_model (db : List Memory) (embeddings : List EmbeddingRow)
    (f : SearchFilterM) (cosDist : EmbeddingRow → ℚ) : List SearchHitM :=
  let joined := db.flatMap (fun m =>
    (embeddings.filter (fun e => e.memory_id == m.id)).map (fun e => (m, e)))
  let matched := joined.filter (fun p =>
    p.2.is_current
      && (p.1.embedding_status == "complete")
      && (match f.created_after with | some t => decide (t < p.1.created_at) | none => true)
      && (match f.created_before with | some t => decide (p.1.created_at < t) | none => true)
      && (match f.tags with
          | some ts => (match p.1.tags with
              | some mt => ts.all (fun t => mt.contains t)
              | none => false)
          | none => true)
      && !p.1.is_consolidated_original)
  let ordered := sort_by_asc (fun p => cosDist p.2) matched
  ((ordered.drop f.offset.toNat).take f.limit.toNat).map
    (fun p => { memory := p.1, similarity := min 1 (max 0 (1 - cosDist p.2)) })

/-- `PostgresMemoryStore::get` (`src/store/postgres.rs` lines 240-258): fetch
the row with the given id, `NotFound` when absent. The fire-and-forget
`touch` only mutates access statistics after the row has been read and does
not affect the returned memory. -/
def get_memory_model (db : List Memory) (id : String) : Except MemcpErrorM Memory :=
  match db.find? (fun m => m.id = id) with
  | some m => .ok m
  | none => .error (.notFound id)

/- ------------------------------------------------------------------ -/
/- C4 : list with keyset pagination (src/store/postgres.rs 354-462)    -/
/- ------------------------------------------------------------------ -/

/-- The list filter (`ListFilter` in `src/store/mod.rs`). The cursor is the
decoded `(created_at, id)` pair; `encode_cursor`/`decode_cursor`
(`src/store/postgres.rs` lines 130-164) are a URL-safe-base64 round trip of
exactly this pair and are modelled as the identity on it. -/
structure ListFilterM where
  type_hint : Option String
  source : Option String
  created_after : Option Int
  created_before : Option Int
  updated_after : Option Int
  updated_before : Option Int
  limit : Int
  cursor : Option (Int × String)

/-- Result of `list` (`ListResult` in `src/store/mod.rs`). -/
structure ListResultM where
  memories : List Memory
  next_cursor : Option (Int × String)
deriving DecidableEq, Repr

/-- The non-cursor WHERE conditions of `list` (`src/store/postgres.rs` lines
363-386): equality on `type_hint`/`source` and strict comparisons on the
four time-window bounds. -/
def matches_filter (f : ListFilterM) (m : Memory) : Bool :=
  (match f.type_hint with | some t => m.type_hint == t | none => true)
    && (match f.source with | some s => m.source == s | none => true)
    && (match f.created_after with | some t => decide (t < m.created_at) | none => true)
    && (match f.created_before with | some t => decide (m.created_at < t) | none => true)
    && (match f.updated_after with | some t => decide (t < m.updated_at) | none => true)
    && (match f.updated_before with | some t => decide (m.updated_at < t) | none => true)

/-- The keyset cursor condition of `list` (`src/store/postgres.rs` lines
387-397): `created_at < c.ts OR (created_at = c.ts AND id > c.id)`. -/
def cursor_matches (c : Int × String) (m : Memory) : Bool :=
  decide (m.created_at < c.1) || (decide (m.created_at = c.1) && decide (c.2 < m.id))

/-- The cursor condition as `list` applies it: present cursors add the keyset
condition to the WHERE clause, an absent cursor adds nothing. -/
def cursor_opt_matches (c : Option (Int × String)) (m : Memory) : Bool :=
  match c with
  | some cc => cursor_matches cc m
  | none => true

/-- The `ORDER BY created_at DESC, id ASC` order of `list`: `a` sorts no
later than `b`. -/
def keyLe (a b : Memory) : Prop :=
  b.created_at < a.created_at ∨ (a.created_at = b.created_at ∧ a.id ≤ b.id)

/-- Strict version of `keyLe`: `a` sorts strictly before `b`. -/
def keyLt (a b : Memory) : Prop :=
  b.created_at < a.created_at ∨ (a.created_at = b.created_at ∧ a.id < b.id)

instance : DecidableRel keyLe := fun a b => by unfold keyLe; infer_instance

instance : DecidableRel keyLt := fun a b => by unfold keyLt; infer_instance

instance : IsTotal Memory keyLe := by
  constructor
  intro a b
  rcases lt_trichotomy a.created_at b.created_at with h | h | h
  · exact Or.inr (Or.inl h)
  · rcases le_total a.id b.id with h2 | h2
    · exact Or.inl (Or.inr ⟨h, h2⟩)
    · exact Or.inr (Or.inr ⟨h.symm, h2⟩)
  · exact Or.inl (Or.inl h)

instance : IsTrans Memory keyLe := by
  constructor
  intro a b c hab hbc
  rcases hab with h1 | ⟨h1, h1b⟩ <;> rcases hbc with h2 | ⟨h2, h2b⟩
  · exact Or.inl (h2.trans h1)
  · exact Or.inl (h2 ▸ h1)
  · exact Or.inl (h1 ▸ h2)
  · exact Or.inr ⟨h1.trans h2, h1b.trans h2b⟩

instance : IsAntisymm Memory keyLt := by
  constructor
  intro a b hab hba
  exfalso
  rcases hab with h1 | ⟨h1, h1b⟩ <;> rcases hba with h2 | ⟨h2, h2b⟩
  · exact absurd (h1.trans h2) (lt_irrefl _)
  · exact absurd h1 (h2 ▸ lt_irrefl _)
  · exact absurd h2 (h1 ▸ lt_irrefl _)
  · exact absurd (h1b.trans h2b) (lt_irrefl _)

/-- Effective page size of `list` (`src/store/postgres.rs` line 355):
`filter.limit.min(100).max(1)`. -/
def effective_list_limit (limit : Int) : Int :=
  max (min limit 100) 1

/-- `PostgresMemoryStore::list` (`src/store/postgres.rs` lines 354-462):
clamp the limit to `[1, 100]`, select rows matching the filter and (when a
cursor is present) the keyset condition, order by `created_at DESC, id ASC`,
fetch `limit + 1` rows to detect a further page, return the first `limit`
rows, and emit the `(created_at, id)` of the last returned row as the next
cursor exactly when more rows exist. -/
def list_model (db : List Memory) (f : ListFilterM) : ListResultM :=
  let limit := effective_list_limit f.limit
  let selected := db.filter (fun m =>
    matches_filter f m && cursor_opt_matches f.cursor m)
  let rows := (List.insertionSort keyLe selected).take (limit + 1).toNat
  let has_more := limit < (rows.length : Int)
  let memories := if has_more then rows.take limit.toNat else rows
  let next_cursor :=
    if has_more then memories.getLast?.map (fun m => (m.created_at, m.id)) else none
  { memories := memories, next_cursor := next_cursor }

/-- Repeatedly call `list`, feeding each returned `next_cursor` into the next
call, and concatenate the pages; `fuel` bounds the number of calls. -/
def collect_pages (db : List Memory) (f : ListFilterM) :
    Nat → Option (Int × String) → List Memory
  | 0, _ => []
  | fuel + 1, c =>
    let r := list_model db { f with cursor := c }
    r.memories ++
      (match r.next_cursor with
        | none => []
        | some c2 => collect_pages db f fuel (some c2))

/- ------------------------------------------------------------------ -/
/- C3 : deterministic temporal parser                                  -/
/- (src/query_intelligence/temporal.rs lines 18-162)                   -/
/- ------------------------------------------------------------------ -/

/-- Days from the epoch 1970-01-01 of a proleptic-Gregorian civil date.
Modelled from chrono (external crate): the standard era/year-of-era/day-of-year
civil-to-days conversion, using floor division. -/
def days_from_civil (y m d : Int) : Int :=
  let y2 := if m ≤ 2 then y - 1 else y
  let era := Int.fdiv y2 400
  let yoe := y2 - era * 400
  let mp := if 2 < m then m - 3 else m + 9
  let doy := Int.fdiv (153 * mp + 2) 5 + d - 1
  let doe := yoe * 365 + Int.fdiv yoe 4 - Int.fdiv yoe 100 + doy
  era * 146097 + doe - 719468

/-- A `chrono::DateTime<Utc>` as its civil (UTC) components; `year()`,
`month()`, `day()` and `Utc.with_ymd_and_hms` read and build exactly these. -/
structure CivilDateTime where
  year : Int
  month : Int
  day : Int
  hour : Int
  minute : Int
  second : Int
deriving DecidableEq, Repr

/-- Epoch seconds of a civil UTC date-time. -/
def civil_to_epoch_sec (t : CivilDateTime) : Int :=
  days_from_civil t.year t.month t.day * 86400 + t.hour * 3600 + t.minute * 60 + t.second

/-- The `TimeRange` returned by the temporal parser
(`src/query_intelligence/mod.rs`), bounds as epoch seconds. -/
structure TimeRange where
  after : Option Int
  before : Option Int
deriving DecidableEq, Repr

/-- Proleptic-Gregorian leap-year test (chrono, external crate). -/
def is_leap_year (y : Int) : Bool :=
  (y % 4 == 0 && y % 100 != 0) || y % 400 == 0

/-- Number of days in a month (chrono, external crate). -/
def days_in_month (y m : Int) : Int :=
  if m = 2 then (if is_leap_year y then 29 else 28)
  else if m = 4 ∨ m = 6 ∨ m = 9 ∨ m = 11 then 30
  else 31

/-- Validity of a `YYYY-MM-DD` date as checked by chrono's
`"{}T00:00:00Z".parse::<DateTime<Utc>>()` (external crate). -/
def is_valid_date (y m d : Int) : Bool :=
  decide (1 ≤ m) && decide (m ≤ 12) && decide (1 ≤ d) && decide (d ≤ days_in_month y m)

/-- Match a literal at the head of the text, returning the rest. -/
def match_lit : List Char → List Char → Option (List Char)
  | [], text => some text
  | _ :: _, [] => none
  | c :: pat, d :: text => if c == d then match_lit pat text else none

/-- Regex `\s+` (one or more whitespace), returning the text after the
maximal whitespace run. The run is forced maximal in every pattern used here
because the character that must follow is never whitespace. -/
def skip_ws1 (text : List Char) : Option (List Char) :=
  match text with
  | c :: rest => if c.isWhitespace then some (rest.dropWhile Char.isWhitespace) else none
  | [] => none

/-- Regex word character `\w` (ASCII approximation). -/
def is_word_char (c : Char) : Bool :=
  c.isAlphanum || c == '_'

/-- Regex `(\w+)` (greedy; forced maximal here because the following pattern
character is never a word character): the captured run and the rest. -/
def take_word1 (text : List Char) : Option (List Char × List Char) :=
  match text with
  | c :: _ =>
    if is_word_char c then some (text.takeWhile is_word_char, text.dropWhile is_word_char)
    else none
  | [] => none

/-- Digit value of an ASCII digit character. -/
def digit_val (c : Char) : Int :=
  (c.toNat : Int) - 48

/-- Match regex `(\d{4}-\d{2}-\d{2})` at the head of the text, returning the
captured (year, month, day). Trailing characters are unconstrained, exactly
as in the regex. -/
def match_date (text : List Char) : Option (Int × Int × Int) :=
  match text with
  | a :: b :: c :: d :: h1 :: e :: f :: h2 :: g :: k :: _ =>
    if a.isDigit && b.isDigit && c.isDigit && d.isDigit && (h1 == '-')
        && e.isDigit && f.isDigit && (h2 == '-') && g.isDigit && k.isDigit then
      some (((digit_val a * 10 + digit_val b) * 10 + digit_val c) * 10 + digit_val d,
        digit_val e * 10 + digit_val f,
        digit_val g * 10 + digit_val k)
    else none
  | _ => none

/-- Leftmost match of regex `kw\s+(\d{4}-\d{2}-\d{2})` over the text,
returning the captured date. -/
def find_kw_date (kw : List Char) : List Char → Option (Int × Int × Int)
  | [] => (match_lit kw []).bind (fun r => (skip_ws1 r).bind match_date)
  | text@(_ :: rest) =>
    match (match_lit kw text).bind (fun r => (skip_ws1 r).bind match_date) with
    | some cap => some cap
    | none => find_kw_date kw rest

/-- Leftmost match of regex `between\s+(\w+)\s+and\s+(\w+)` over the text,
returning the two captured words. -/
def find_between : List Char → Option (List Char × List Char)
  | [] => none
  | text@(_ :: rest) =>
    match
      (match_lit "between".toList text).bind (fun r1 =>
        (skip_ws1 r1).bind (fun r2 =>
          (take_word1 r2).bind (fun w1r3 =>
            (skip_ws1 w1r3.2).bind (fun r4 =>
              (match_lit "and".toList r4).bind (fun r5 =>
                (skip_ws1 r5).bind (fun r6 =>
                  (take_word1 r6).map (fun w2r7 => (w1r3.1, w2r7.1))))))))
    with
    | some caps => some caps
    | none => find_between rest

/-- `parse_month_name` (`src/query_intelligence/temporal.rs` lines 146-162);
the input is already lowercase because the whole query is lowercased first. -/
def parse_month_name (w : List Char) : Option Int :=
  if w = "january".toList ∨ w = "jan".toList then some 1
  else if w = "february".toList ∨ w = "feb".toList then some 2
  else if w = "march".toList ∨ w = "mar".toList then some 3
  else if w = "april".toList ∨ w = "apr".toList then some 4
  else if w = "may".toList then some 5
  else if w = "june".toList ∨ w = "jun".toList then some 6
  else if w = "july".toList ∨ w = "jul".toList then some 7
  else if w = "august".toList ∨ w = "aug".toList then some 8
  else if w = "september".toList ∨ w = "sep".toList ∨ w = "sept".toList then some 9
  else if w = "october".toList ∨ w = "oct".toList then some 10
  else if w = "november".toList ∨ w = "nov".toList then some 11
  else if w = "december".toList ∨ w = "dec".toList then some 12
  else none

/-- The `"between MONTH and MONTH"` branch
(`src/query_intelligence/temporal.rs` lines 117-140): start of the first
month to the last second before the month after the second month, in the
current year (rolling into January of the next year when the second month is
December). A month name that fails to parse makes the whole parse return
`none` (the `?` operator). -/
def parse_between (q : List Char) (now : CivilDateTime) : Option TimeRange :=
  match find_between q with
  | some caps =>
    match parse_month_name caps.1, parse_month_name caps.2 with
    | some m1, some m2 =>
      let year := now.year
      let start := days_from_civil year m1 1 * 86400
      let endSec :=
        (if m2 = 12 then days_from_civil (year + 1) 1 1 else days_from_civil year (m2 + 1) 1)
          * 86400 - 1
      some { after := some start, before := some endSec }
    | _, _ => none
  | none => none

/-- The absolute-date branches (`src/query_intelligence/temporal.rs` lines
92-113): `"after YYYY-MM-DD"` at `00:00:00Z`, `"before YYYY-MM-DD"` at
`23:59:59Z`; a captured date that chrono rejects falls through to the next
pattern. -/
def parse_absolute (q : List Char) (now : CivilDateTime) : Option TimeRange :=
  let afterHit : Option TimeRange :=
    match find_kw_date "after".toList q with
    | some ymd =>
      if is_valid_date ymd.1 ymd.2.1 ymd.2.2 then
        some { after := some (days_from_civil ymd.1 ymd.2.1 ymd.2.2 * 86400), before := none }
      else none
    | none => none
  match afterHit with
  | some r => some r
  | none =>
    let beforeHit : Option TimeRange :=
      match find_kw_date "before".toList q with
      | some ymd =>
        if is_valid_date ymd.1 ymd.2.1 ymd.2.2 then
          some { after := none,
                 before := some (days_from_civil ymd.1 ymd.2.1 ymd.2.2 * 86400
                 + (23 * 3600 + 59 * 60 + 59)) }
        else none
      | none => none
    match beforeHit with
    | some r => some r
    | none => parse_between q now

/-- `parse_temporal_hint` (`src/query_intelligence/temporal.rs` lines
18-143): lowercase the query, then try the patterns in source order — the
named relative periods by substring containment, then the regex patterns.
`Utc.with_ymd_and_hms(now.year(), now.month(), now.day(), 0, 0, 0)` is the
start of the current UTC day; `Duration::days/hours/minutes/seconds` are the
corresponding second counts. -/
def parse_temporal_hint (query : String) (now : CivilDateTime) : Option TimeRange :=
  let q := query.toList.map Char.toLower
  let todayStart := days_from_civil now.year now.month now.day * 86400
  let nowSec := civil_to_epoch_sec now
  if has_infix_chars q "yesterday".toList then
    let start := todayStart - 86400
    some { after := some start, before := some (start + (23 * 3600 + 59 * 60 + 59)) }
  else if has_infix_chars q "today".toList then
    some { after := some todayStart, before := none }
  else if has_infix_chars q "last week".toList || has_infix_chars q "past week".toList then
    some { after := some (nowSec - 7 * 86400), before := none }
  else if has_infix_chars q "last month".toList || has_infix_chars q "past month".toList then
    some { after := some (nowSec - 30 * 86400), before := none }
  else if has_infix_chars q "last year".toList || has_infix_chars q "past year".toList then
    some { after := some (nowSec - 365 * 86400), before := none }
  else if has_infix_chars q "a few days ago".toList then
    some { after := some (nowSec - 5 * 86400), before := some (nowSec - 86400) }
  else if has_infix_chars q "a few weeks ago".toList then
    some { after := some (nowSec - 28 * 86400), before := some (nowSec - 7 * 86400) }
  else if has_infix_chars q "a few months ago".toList then
    some { after := some (nowSec - 90 * 86400), before := some (nowSec - 30 * 86400) }
  else
    parse_absolute q now

/-- Modelled from the spec (§4.G, "Temporal parser", amended for the
`"today"` pattern): the documented range for each pattern, in the documented
first-match-wins order. Day boundaries and `00:00:00` / `23:59:59` bounds
are written via civil date-times, the relative windows as
`now - days * 24h`. Amendment: `"today"` yields only the start-of-day lower
bound (the code returns `before: None` there). -/
def spec_temporal_range (query : String) (now : CivilDateTime) : Option TimeRange :=
  let q := query.toList.map Char.toLower
  let dayStart := civil_to_epoch_sec { now with hour := 0, minute := 0, second := 0 }
  let nowSec := civil_to_epoch_sec now
  let day : Int := 24 * 3600
  if has_infix_chars q "yesterday".toList then
    some { after := some (dayStart - day), before := some (dayStart - 1) }
  else if has_infix_chars q "today".toList then
    some { after := some dayStart, before := none }
  else if has_infix_chars q "last week".toList || has_infix_chars q "past week".toList then
    some { after := some (nowSec - 7 * day), before := none }
  else if has_infix_chars q "last month".toList || has_infix_chars q "past month".toList then
    some { after := some (nowSec - 30 * day), before := none }
  else if has_infix_chars q "last year".toList || has_infix_chars q "past year".toList then
    some { after := some (nowSec - 365 * day), before := none }
  else if has_infix_chars q "a few days ago".toList then
    some { after := some (nowSec - 5 * day), before := some (nowSec - 1 * day) }
  else if has_infix_chars q "a few weeks ago".toList then
    some { after := some (nowSec - 28 * day), before := some (nowSec - 7 * day) }
  else if has_infix_chars q "a few months ago".toList then
    some { after := some (nowSec - 90 * day), before := some (nowSec - 30 * day) }
  else
    match find_kw_date "after".toList q with
    | some ymd =>
      if is_valid_date ymd.1 ymd.2.1 ymd.2.2 then
        some { after := some (civil_to_epoch_sec ⟨ymd.1, ymd.2.1, ymd.2.2, 0, 0, 0⟩),
               before := none }
      else
        match find_kw_date "before".toList q with
        | some ymd2 =>
          if is_valid_date ymd2.1 ymd2.2.1 ymd2.2.2 then
            some { after := none,
                   before := some (civil_to_epoch_sec ⟨ymd2.1, ymd2.2.1, ymd2.2.2, 23, 59, 59⟩) }
          else parse_between q now
        | none => parse_between q now
    | none =>
      match find_kw_date "before".toList q with
      | some ymd2 =>
        if is_valid_date ymd2.1 ymd2.2.1 ymd2.2.2 then
          some { after := none,
                 before := some (civil_to_epoch_sec ⟨ymd2.1, ymd2.2.1, ymd2.2.2, 23, 59, 59⟩) }
        else parse_between q now
      | none => parse_between q now

/-- A sample stored memory used to instantiate hypotheses at concrete inputs. -/
def sampleMemory : Memory :=
  { id := "a"
    content := "Rust is great"
    type_hint := "fact"
    source := "default"
    tags := none
    created_at := 100
    updated_at := 100
    last_accessed_at := none
    access_count := 0
    embedding_status := "pending"
    extracted_entities := none
    extracted_facts := none
    extraction_status := "pending"
    is_consolidated_original := false
    consolidated_into := none }

/-- A consolidated-original row for concrete instantiations. -/
def hiddenMemory : Memory :=
  { sampleMemory with
      id := "h"
      embedding_status := "complete"
      is_consolidated_original := true }

/-- A searchable row for concrete instantiations. -/
def visibleMemory : Memory :=
  { sampleMemory with
      id := "v"
      embedding_status := "complete" }

/- ================================================================== -/
/- Theorems                                                            -/
/- ================================================================== -/

/-- Pointwise reading of one leg's accumulation: the map after a leg's pass
adds that leg's total contribution for each id. -/
theorem leg_accumulate_eq (k : ℚ) (ranks : List (String × Int)) (scores : String → ℚ)
    (i : String) : leg_accumulate k ranks scores i = scores i + leg_sum k ranks i := by
  induction ranks generalizing scores with
  | nil => simp [leg_accumulate, leg_sum]
  | cons p rest ih =>
    simp only [leg_accumulate, List.foldl_cons] at *
    rw [ih]
    by_cases hip : i = p.1
    · simp [leg_sum, hip, List.filter_cons]
      ring
    · have : ¬(p.1 = i) := fun h => hip h.symm
      simp [leg_sum, List.filter_cons, this, hip]

/-- The fused RRF score of an id is the sum of its three per-leg
contributions. -/
theorem rrf_scores_eq (b v s : List (String × Int)) (kb kv ks : ℚ) (i : String) :
    rrf_scores b v s kb kv ks i = leg_sum kb b i + leg_sum kv v i + leg_sum ks s i := by
  unfold rrf_scores
  rw [leg_accumulate_eq, leg_accumulate_eq, leg_accumulate_eq]
  ring

/-- With positive k and 1-based ranks, a strictly better (smaller) rank gives
a strictly larger reciprocal-rank contribution. -/
theorem contrib_lt_of_rank_lt (k : ℚ) (ra rb : Int) (hk : 0 < k) (hra : 1 ≤ ra)
    (hrab : ra < rb) : 1 / (k + (rb : ℚ)) < 1 / (k + (ra : ℚ)) := by
  have hra' : (1 : ℚ) ≤ (ra : ℚ) := by exact_mod_cast hra
  have hrab' : (ra : ℚ) < (rb : ℚ) := by exact_mod_cast hrab
  have h1 : (0 : ℚ) < k + (ra : ℚ) := by linarith
  have h2 : k + (ra : ℚ) < k + (rb : ℚ) := by linarith
  exact one_div_lt_one_div_of_lt h1 h2

/-- Contribution of a leg in which an id occurs exactly once. -/
theorem leg_sum_single (k : ℚ) (l : List (String × Int)) (a : String) (r : Int)
    (h : l.filter (fun p => p.1 = a) = [(a, r)]) : leg_sum k l a = 1 / (k + (r : ℚ)) := by
  simp [leg_sum, h]

/-- C5: when two documents tie in all but one leg (equal total contributions
in the other two legs) and each occurs exactly once in the remaining leg, the
document with the numerically smaller (better) rank in that leg receives a
strictly higher fused RRF score, for any positive k of that leg; stated for
each of the three legs as the distinguished one. -/
theorem rrf_leg_monotonicity (b v s : List (String × Int)) (kb kv ks : ℚ)
    (a c : String) (ra rb : Int) (hra : 1 ≤ ra) (hrab : ra < rb) :
    (0 < kb → b.filter (fun p => p.1 = a) = [(a, ra)] →
      b.filter (fun p => p.1 = c) = [(c, rb)] →
      leg_sum kv v a = leg_sum kv v c → leg_sum ks s a = leg_sum ks s c →
      rrf_scores b v s kb kv ks c < rrf_scores b v s kb kv ks a)
      ∧ (0 < kv → v.filter (fun p => p.1 = a) = [(a, ra)] →
        v.filter (fun p => p.1 = c) = [(c, rb)] →
        leg_sum kb b a = leg_sum kb b c → leg_sum ks s a = leg_sum ks s c →
        rrf_scores b v s kb kv ks c < rrf_scores b v s kb kv ks a)
      ∧ (0 < ks → s.filter (fun p => p.1 = a) = [(a, ra)] →
        s.filter (fun p => p.1 = c) = [(c, rb)] →
        leg_sum kb b a = leg_sum kb b c → leg_sum kv v a = leg_sum kv v c →
        rrf_scores b v s kb kv ks c < rrf_scores b v s kb kv ks a) := by
  refine ⟨?_, ?_, ?_⟩ <;> intro hk hfa hfc hx hy <;>
    rw [rrf_scores_eq, rrf_scores_eq, leg_sum_single _ _ _ _ hfa, leg_sum_single _ _ _ _ hfc] <;>
    have := contrib_lt_of_rank_lt _ ra rb hk hra hrab <;>
    linarith

/-- C5 witness: two documents tying in the vector leg and absent from the
symbolic leg; ranks 1 versus 2 in the BM25 leg with the default k = 60. -/
theorem rrf_leg_monotonicity_witness :
    rrf_scores [("x", 1), ("y", 2)] [("x", 3), ("y", 3)] [] 60 60 40 "y"
      < rrf_scores [("x", 1), ("y", 2)] [("x", 3), ("y", 3)] [] 60 60 40 "x" :=
  (rrf_leg_monotonicity [("x", 1), ("y", 2)] [("x", 3), ("y", 3)] [] 60 60 40 "x" "y" 1 2
    (by decide) (by decide)).1 (by norm_num) (by decide) (by decide)
    (by simp [leg_sum, List.filter_cons, List.filter_nil])
    (by simp [leg_sum, List.filter_cons, List.filter_nil])

/-- The FSRS retrievability value always lies in `[0, 1]`. -/
theorem fsrs_retrievability_mem (s e : ℝ) :
    0 ≤ fsrs_retrievability s e ∧ fsrs_retrievability s e ≤ 1 := by
  unfold fsrs_retrievability
  split
  · norm_num
  · exact ⟨le_min (by norm_num) (le_max_left 0 _), min_le_left 1 _⟩

/-- For positive stability and non-negative elapsed time the clamps are
inactive and retrievability is the plain power law. -/
theorem fsrs_retrievability_eq (s e : ℝ) (hs : 0 < s) (he : 0 ≤ e) :
    fsrs_retrievability s e = ((1 + 19 / 81 * e / s) ^ ((1 : ℝ) / 2))⁻¹ := by
  have hq : (0 : ℝ) ≤ 19 / 81 * e / s := by positivity
  have hbase : (1 : ℝ) ≤ 1 + 19 / 81 * e / s := by linarith
  have hbase0 : (0 : ℝ) < 1 + 19 / 81 * e / s := by linarith
  have hneg : (1 + 19 / 81 * e / s) ^ (-(1 / 2) : ℝ)
      = ((1 + 19 / 81 * e / s) ^ ((1 : ℝ) / 2))⁻¹ := by
    rw [← Real.rpow_neg hbase0.le]
  have hone : (1 : ℝ) ≤ (1 + 19 / 81 * e / s) ^ ((1 : ℝ) / 2) := by
    simpa using Real.rpow_le_rpow_of_exponent_le hbase (by norm_num : (0 : ℝ) ≤ 1 / 2)
  have hpos : (0 : ℝ) < (1 + 19 / 81 * e / s) ^ ((1 : ℝ) / 2) :=
    Real.rpow_pos_of_pos hbase0 _
  unfold fsrs_retrievability
  rw [if_neg (not_le.mpr hs), hneg, max_eq_right (by positivity),
    min_eq_right (inv_le_one hone)]

/-- FSRS retrievability is strictly decreasing in elapsed time (fixed
positive stability). -/
theorem fsrs_retrievability_strict_anti (s : ℝ) (hs : 0 < s) {e1 e2 : ℝ}
    (h1 : 0 ≤ e1) (h12 : e1 < e2) :
    fsrs_retrievability s e2 < fsrs_retrievability s e1 := by
  rw [fsrs_retrievability_eq s e1 hs h1, fsrs_retrievability_eq s e2 hs (h1.trans h12.le)]
  have hb1 : (0 : ℝ) < 1 + 19 / 81 * e1 / s := by positivity
  have hblt : 1 + 19 / 81 * e1 / s < 1 + 19 / 81 * e2 / s := by
    have : 19 / 81 * e1 / s < 19 / 81 * e2 / s := by
      apply div_lt_div_of_pos_right ?_ hs
      linarith
    linarith
  have hplt : (1 + 19 / 81 * e1 / s) ^ ((1 : ℝ) / 2)
      < (1 + 19 / 81 * e2 / s) ^ ((1 : ℝ) / 2) :=
    Real.rpow_lt_rpow hb1.le hblt (by norm_num)
  have hp1 : (0 : ℝ) < (1 + 19 / 81 * e1 / s) ^ ((1 : ℝ) / 2) :=
    Real.rpow_pos_of_pos hb1 _
  exact inv_lt_inv_of_lt hp1 hplt

/-- C2: for the same memory and starting stability, a `reinforce(good)` after
a longer elapsed time produces a strictly larger stability increase than
after a shorter one. The hypotheses `0.1 ≤ s` and `s * (5/2) ≤ 36500` keep
both results strictly inside the `[0.1, 36500]` clamp (the boost factor for
`"good"` lies in `[1, 2.5]`), matching the claim's proviso. -/
theorem reinforce_spacing (s e1 e2 : ℝ) (hs : 0.1 ≤ s) (hcap : s * (5 / 2) ≤ 36500)
    (h1 : 0 ≤ e1) (h12 : e1 < e2) :
    reinforce_stability_delta s e1 "good" < reinforce_stability_delta s e2 "good" := by
  have hs0 : (0 : ℝ) < s := lt_of_lt_of_le (by norm_num) hs
  have key : ∀ e : ℝ, 0 ≤ e → reinforce_new_stability s e "good"
      = s * (1 + (1 - fsrs_retrievability s e) * 1.5) := by
    intro e he
    have hR := fsrs_retrievability_mem s e
    have low : (0.1 : ℝ) ≤ s * (1 + (1 - fsrs_retrievability s e) * 1.5) := by nlinarith
    have high : s * (1 + (1 - fsrs_retrievability s e) * 1.5) ≤ 36500 := by nlinarith
    unfold reinforce_new_stability
    rw [max_eq_left he, if_neg (by decide : ¬("good" : String) = "easy")]
    show min 36500 (max 0.1 (s * (1 + (1 - fsrs_retrievability s e) * 1.5)))
      = s * (1 + (1 - fsrs_retrievability s e) * 1.5)
    rw [max_eq_right low, min_eq_right high]
  unfold reinforce_stability_delta
  rw [key e1 h1, key e2 (h1.trans h12.le)]
  have hanti := fsrs_retrievability_strict_anti s hs0 h1 h12
  nlinarith

/-- C2 witness: stability 1, elapsed times 0 and 1 day. -/
theorem reinforce_spacing_witness :
    reinforce_stability_delta 1 0 "good" < reinforce_stability_delta 1 1 "good" :=
  reinforce_spacing 1 0 1 (by norm_num) (by norm_num) (by norm_num) (by norm_num)

/-- Every id carried by a rank assignment comes from the input id list. -/
theorem mem_with_ranks (l : List String) (r : Int) (p : String × Int)
    (h : p ∈ with_ranks l r) : p.1 ∈ l := by
  induction l generalizing r with
  | nil => cases h
  | cons a rest ih =>
    cases h with
    | head => exact List.mem_cons_self _ _
    | tail _ ht => exact List.mem_cons_of_mem _ (ih (r + 1) ht)

/-- Every id appearing in a ranked, truncated leg result comes from a
database row passing that leg's filter. -/
theorem ranked_leg_mem {β : Type} [LinearOrder β] (db : List Memory)
    (pred : Memory → Bool) (score : Memory → β) (lim : Int) (i : String)
    (h : i ∈ ((with_ranks ((sort_by_desc score (db.filter pred)).map Memory.id) 1).take
      lim.toNat).map Prod.fst) :
    ∃ m' ∈ db, pred m' = true ∧ m'.id = i := by
  obtain ⟨p, hp, hpi⟩ := List.mem_map.mp h
  have hp2 := mem_with_ranks _ _ _ (List.mem_of_mem_take hp)
  obtain ⟨m', hm', hmi⟩ := List.mem_map.mp hp2
  have hperm : List.Perm (sort_by_desc score (db.filter pred)) (db.filter pred) :=
    List.perm_insertionSort _ _
  have hmem := hperm.mem_iff.mp hm'
  obtain ⟨hdb, hpred⟩ := List.mem_filter.mp hmem
  exact ⟨m', hdb, hpred, by rw [hmi, hpi]⟩

/-- With unique ids, looking up a stored memory by its id finds exactly it. -/
theorem find_by_id_of_nodup (db : List Memory) (m : Memory)
    (hnd : (db.map Memory.id).Nodup) (hm : m ∈ db) :
    db.find? (fun x => x.id = m.id) = some m := by
  induction db with
  | nil => cases hm
  | cons a rest ih =>
    rw [List.map_cons, List.nodup_cons] at hnd
    by_cases hid : a.id = m.id
    · cases hm with
      | head => simp [List.find?]
      | tail _ hmt =>
        exact absurd (hid ▸ List.mem_map_of_mem Memory.id hmt) hnd.1
    · have hpa : decide (a.id = m.id) = false := by simp [hid]
      cases hm with
      | head => exact absurd rfl hid
      | tail _ hmt =>
        simp only [List.find?, hpa]
        exact ih hnd.2 hmt

/-- C1: a memory flagged `is_consolidated_original` never appears in the
results of any of the three search legs — BM25, symbolic, or vector — for
any query, limit, filters, and any external ranking functions (so it never
reaches a `search_memory` result, whose candidates all come from these
legs), while `get` by its id still returns it. -/
theorem consolidated_originals_hidden (db : List Memory) (embeddings : List EmbeddingRow)
    (m : Memory) (hnd : (db.map Memory.id).Nodup) (hm : m ∈ db)
    (hflag : m.is_consolidated_original = true) :
    (∀ (query : String) (limit : Int) (tsMatch : String → String → Bool)
      (tsRank : String → String → ℚ),
      m.id ∉ (search_bm25_model db query limit tsMatch tsRank).map Prod.fst)
      ∧ (∀ (query : String) (limit : Int),
        m.id ∉ (search_symbolic_model db query limit).map Prod.fst)
      ∧ (∀ (f : SearchFilterM) (cosDist : EmbeddingRow → ℚ),
        m.id ∉ (search_similar_model db embeddings f cosDist).map (fun h => h.memory.id))
      ∧ get_memory_model db m.id = .ok m := by
  have inj := List.inj_on_of_nodup_map hnd
  refine ⟨?_, ?_, ?_, ?_⟩
  · intro query limit tsMatch tsRank hmem
    obtain ⟨m', hdb, hpred, hmi⟩ := ranked_leg_mem db _ _ limit m.id hmem
    have hmm : m' = m := inj hdb hm hmi
    rw [hmm] at hpred
    simp [hflag] at hpred
  · intro query limit hmem
    obtain ⟨m', hdb, hpred, hmi⟩ := ranked_leg_mem db _ _ limit m.id hmem
    have hmm : m' = m := inj hdb hm hmi
    rw [hmm] at hpred
    simp [hflag] at hpred
  · intro f cosDist hmem
    unfold search_similar_model at hmem
    obtain ⟨h, hh, hid⟩ := List.mem_map.mp hmem
    obtain ⟨p, hp, hph⟩ := List.mem_map.mp hh
    have hp2 : p ∈ sort_by_asc (fun p => cosDist p.2) _ :=
      List.mem_of_mem_drop (List.mem_of_mem_take hp)
    unfold sort_by_asc at hp2
    have hperm := (List.perm_insertionSort _ _).mem_iff.mp hp2
    obtain ⟨hjoined, hpred⟩ := List.mem_filter.mp hperm
    obtain ⟨m2, hm2, hpe⟩ := List.mem_flatMap.mp hjoined
    obtain ⟨e, he, hpe2⟩ := List.mem_map.mp hpe
    have hp1 : p.1 = m2 := by rw [← hpe2]
    have hpid : p.1.id = m.id := by rw [← hph] at hid; exact hid
    have hm2m : m2 = m := inj hm2 hm (by rw [← hp1, hpid])
    rw [hp1, hm2m] at hpred
    simp [hflag] at hpred
  · unfold get_memory_model
    rw [find_by_id_of_nodup db m hnd hm]

/-- C1 witness: a two-row database whose first row is a consolidated
original; it is absent from all three legs but returned by `get`. -/
theorem consolidated_originals_hidden_witness :
    ("h" : String) ∉ (search_bm25_model [hiddenMemory, visibleMemory]
      "q" 10 (fun _ _ => true) (fun _ _ => 0)).map Prod.fst
      ∧ ("h" : String) ∉ (search_symbolic_model [hiddenMemory, visibleMemory]
        "fact" 10).map Prod.fst
      ∧ ("h" : String) ∉ (search_similar_model [hiddenMemory, visibleMemory]
        [⟨"h", true⟩, ⟨"v", true⟩] ⟨10, 0, none, none, none⟩ (fun _ => 0)).map
          (fun h => h.memory.id)
      ∧ get_memory_model [hiddenMemory, visibleMemory] "h" = .ok hiddenMemory := by
  have inst := consolidated_originals_hidden [hiddenMemory, visibleMemory]
    [⟨"h", true⟩, ⟨"v", true⟩] hiddenMemory (by decide) (by decide) (by decide)
  exact ⟨inst.1 "q" 10 (fun _ _ => true) (fun _ _ => 0),
    inst.2.1 "fact" 10,
    inst.2.2.1 ⟨10, 0, none, none, none⟩ (fun _ => 0),
    inst.2.2.2⟩

/-- The sort order `keyLt` is irreflexive. -/
theorem keyLt_irrefl (a : Memory) : ¬keyLt a a := by
  rintro (h | ⟨_, h⟩) <;> exact lt_irrefl _ h

/-- The sort order `keyLt` is asymmetric. -/
theorem keyLt_asymm {a b : Memory} (h : keyLt a b) : ¬keyLt b a := by
  intro h2
  exact keyLt_irrefl a ((antisymm h h2) ▸ h)

/-- A `keyLe`-sorted list with pairwise-distinct ids is strictly sorted. -/
theorem pairwise_keyLt_of_sorted (l : List Memory) (hs : List.Pairwise keyLe l)
    (hnd : (l.map Memory.id).Nodup) : List.Pairwise keyLt l := by
  have hnd' : List.Pairwise (fun a b : Memory => a.id ≠ b.id) l := List.pairwise_map.mp hnd
  refine (hs.and hnd').imp ?_
  rintro a b ⟨hle, hne⟩
  rcases hle with h | ⟨heq, hle'⟩
  · exact Or.inl h
  · exact Or.inr ⟨heq, lt_of_le_of_ne hle' hne⟩

/-- The keyset cursor condition with the key of row `a` selects exactly the
rows strictly after `a` in the sort order. -/
theorem cursor_matches_iff (a b : Memory) :
    cursor_matches (a.created_at, a.id) b = true ↔ keyLt a b := by
  simp only [cursor_matches, Bool.or_eq_true, Bool.and_eq_true, decide_eq_true_eq]
  unfold keyLt
  constructor
  · rintro (h | ⟨h1, h2⟩)
    exacts [Or.inl h, Or.inr ⟨h1.symm, h2⟩]
  · rintro (h | ⟨h1, h2⟩)
    exacts [Or.inl h, Or.inr ⟨h1.symm, h2⟩]

/-- With unique ids, sorting then filtering equals filtering then sorting. -/
theorem sort_filter_comm (l : List Memory) (hnd : (l.map Memory.id).Nodup)
    (p : Memory → Bool) :
    List.insertionSort keyLe (l.filter p) = (List.insertionSort keyLe l).filter p := by
  have hperm : List.Perm (List.insertionSort keyLe (l.filter p))
      ((List.insertionSort keyLe l).filter p) :=
    (List.perm_insertionSort keyLe (l.filter p)).trans
      (((List.perm_insertionSort keyLe l).symm).filter p)
  have hndF : ((l.filter p).map Memory.id).Nodup :=
    List.Nodup.sublist (List.Sublist.map Memory.id (List.filter_sublist l)) hnd
  have hnd1 : ((List.insertionSort keyLe (l.filter p)).map Memory.id).Nodup :=
    (List.Perm.nodup_iff ((List.perm_insertionSort keyLe (l.filter p)).map Memory.id)).mpr hndF
  have hndS : ((List.insertionSort keyLe l).map Memory.id).Nodup :=
    (List.Perm.nodup_iff ((List.perm_insertionSort keyLe l).map Memory.id)).mpr hnd
  have hs1 : List.Pairwise keyLt (List.insertionSort keyLe (l.filter p)) :=
    pairwise_keyLt_of_sorted _ (List.sorted_insertionSort keyLe (l.filter p)) hnd1
  have hs2 : List.Pairwise keyLt ((List.insertionSort keyLe l).filter p) :=
    List.Pairwise.sublist (List.filter_sublist _)
      (pairwise_keyLt_of_sorted _ (List.sorted_insertionSort keyLe l) hndS)
  exact List.eq_of_perm_of_sorted hperm hs1 hs2

/-- In a strictly sorted list, filtering with the cursor key of a member row
yields exactly the suffix after that row. -/
theorem filter_cursor_of_sorted (L : List Memory) (h : List.Pairwise keyLt L)
    (l1 l2 : List Memory) (x : Memory) (hL : L = l1 ++ x :: l2) :
    L.filter (cursor_matches (x.created_at, x.id)) = l2 := by
  subst hL
  obtain ⟨h1, h2, hbet⟩ := List.pairwise_append.mp h
  rw [List.filter_append]
  have hl1 : l1.filter (cursor_matches (x.created_at, x.id)) = [] := by
    rw [List.filter_eq_nil_iff]
    intro a ha hpa
    exact keyLt_asymm (hbet a ha x (List.mem_cons_self _ _)) ((cursor_matches_iff x a).mp hpa)
  have hx : cursor_matches (x.created_at, x.id) x = false := by
    rcases hcase : cursor_matches (x.created_at, x.id) x with _ | _
    · rfl
    · exact absurd ((cursor_matches_iff x x).mp hcase) (keyLt_irrefl x)
  have hl2 : l2.filter (cursor_matches (x.created_at, x.id)) = l2 := by
    rw [List.filter_eq_self]
    intro b hb
    exact (cursor_matches_iff x b).mpr ((List.pairwise_cons.mp h2).1 b hb)
  rw [hl1, List.filter_cons, hx]
  simpa using hl2

/-- The rows a `list` page draws from: filtering by the (filter, cursor)
conjunction and sorting is the same as filtering the sorted
filter-matching rows by the cursor condition. -/
theorem selected_sorted_eq (db : List Memory) (f : ListFilterM)
    (hnd : (db.map Memory.id).Nodup) (c : Option (Int × String)) :
    List.insertionSort keyLe (db.filter (fun m =>
        matches_filter f m && cursor_opt_matches c m))
      = (List.insertionSort keyLe (db.filter (fun m => matches_filter f m))).filter
          (cursor_opt_matches c) := by
  have hsplit : db.filter (fun m => matches_filter f m && cursor_opt_matches c m)
      = (db.filter (fun m => matches_filter f m)).filter (cursor_opt_matches c) := by
    rw [List.filter_filter]
    exact (List.filter_congr (fun a _ => by rw [Bool.and_comm])).symm
  rw [hsplit]
  exact sort_filter_comm _ (List.Nodup.sublist (List.Sublist.map Memory.id
    (List.filter_sublist db)) hnd) _

/-- One `list` page, written without the intermediate lets: fetch
`limit + 1` sorted matching rows, report `has_more` when they exceed the
page size, keep the first `limit` rows, and emit the last kept row's key as
the next cursor. -/
theorem list_model_eq (db : List Memory) (g : ListFilterM) (rows : List Memory)
    (lim : Int) (hlim : effective_list_limit g.limit = lim)
    (hrows : (List.insertionSort keyLe (db.filter (fun m =>
      matches_filter g m && cursor_opt_matches g.cursor m))).take
        (lim + 1).toNat = rows) :
    list_model db g =
      if lim < (rows.length : Int) then
        { memories := rows.take lim.toNat,
          next_cursor := (rows.take lim.toNat).getLast?.map
            (fun m => (m.created_at, m.id)) }
      else { memories := rows, next_cursor := none } := by
  subst hlim
  subst hrows
  unfold list_model
  simp only []
  by_cases h : effective_list_limit g.limit
      < (((List.insertionSort keyLe (db.filter (fun m =>
        matches_filter g m && cursor_opt_matches g.cursor m))).take
          (effective_list_limit g.limit + 1).toNat).length : Int)
  · simp only [if_pos h]
  · simp only [if_neg h]

/-- Every row on a `list` page satisfies the filter and the cursor
condition. -/
theorem list_model_mem (db : List Memory) (g : ListFilterM) (m : Memory)
    (hm : m ∈ (list_model db g).memories) :
    matches_filter g m = true ∧ cursor_opt_matches g.cursor m = true := by
  have hm2 : m ∈ List.insertionSort keyLe (db.filter (fun x =>
      matches_filter g x && cursor_opt_matches g.cursor x)) := by
    rw [list_model_eq db g _ (effective_list_limit g.limit) rfl rfl] at hm
    by_cases h : effective_list_limit g.limit
        < (((List.insertionSort keyLe (db.filter (fun x =>
          matches_filter g x && cursor_opt_matches g.cursor x))).take
            (effective_list_limit g.limit + 1).toNat).length : Int)
    · rw [if_pos h] at hm
      exact List.mem_of_mem_take (List.mem_of_mem_take hm)
    · rw [if_neg h] at hm
      exact List.mem_of_mem_take hm
  have hf := List.mem_filter.mp ((List.perm_insertionSort keyLe _).mem_iff.mp hm2)
  have h2 := hf.2
  simp only [Bool.and_eq_true] at h2
  exact h2

/-- A `list` page never exceeds the clamped limit. -/
theorem list_model_length (db : List Memory) (g : ListFilterM) :
    (((list_model db g).memories.length : Int)) ≤ effective_list_limit g.limit := by
  have hlim1 : 1 ≤ effective_list_limit g.limit := le_max_right _ _
  rw [list_model_eq db g _ (effective_list_limit g.limit) rfl rfl]
  by_cases h : effective_list_limit g.limit
      < (((List.insertionSort keyLe (db.filter (fun x =>
        matches_filter g x && cursor_opt_matches g.cursor x))).take
          (effective_list_limit g.limit + 1).toNat).length : Int)
  · rw [if_pos h]
    simp only [List.length_take]
    omega
  · rw [if_neg h]
    simp only
    omega

/-- Paging through `list` with enough fuel walks down exactly the suffix of
the sorted matching rows that the cursor selects. -/
theorem collect_pages_suffix (db : List Memory) (f : ListFilterM)
    (hnd : (db.map Memory.id).Nodup) :
    ∀ (fuel : Nat) (c : Option (Int × String)) (l1 l2 : List Memory),
      List.insertionSort keyLe (db.filter (fun m => matches_filter f m)) = l1 ++ l2 →
      (List.insertionSort keyLe (db.filter (fun m => matches_filter f m))).filter
          (cursor_opt_matches c) = l2 →
      l2.length < fuel →
      collect_pages db f fuel c = l2 := by
  intro fuel
  induction fuel with
  | zero => intro c l1 l2 _ _ hlen; omega
  | succ n ih =>
    intro c l1 l2 hdecomp hc hlen
    have hlim1 : 1 ≤ effective_list_limit f.limit := le_max_right _ _
    have hbase : List.insertionSort keyLe (db.filter (fun m =>
        matches_filter f m && cursor_opt_matches c m)) = l2 := by
      rw [selected_sorted_eq db f hnd c, hc]
    by_cases hsmall : l2.length ≤ (effective_list_limit f.limit).toNat
    · -- the whole remaining suffix fits on this page
      have hrows : (List.insertionSort keyLe (db.filter (fun m =>
          matches_filter f m && cursor_opt_matches c m))).take
          (effective_list_limit f.limit + 1).toNat = l2 := by
        rw [hbase]
        exact List.take_of_length_le (by omega)
      have hpage := list_model_eq db { f with cursor := c } l2
        (effective_list_limit f.limit) rfl hrows
      have hcondn : ¬effective_list_limit f.limit < ((l2.length : Int)) := by omega
      rw [collect_pages, hpage, if_neg hcondn]
      simp
    · -- a full page plus further pages
      push_neg at hsmall
      have hrows : (List.insertionSort keyLe (db.filter (fun m =>
          matches_filter f m && cursor_opt_matches c m))).take
          (effective_list_limit f.limit + 1).toNat
          = l2.take ((effective_list_limit f.limit).toNat + 1) := by
        rw [hbase]
        congr 1
        omega
      have hpage := list_model_eq db { f with cursor := c }
        (l2.take ((effective_list_limit f.limit).toNat + 1))
        (effective_list_limit f.limit) rfl hrows
      have hrowlen : (l2.take ((effective_list_limit f.limit).toNat + 1)).length
          = (effective_list_limit f.limit).toNat + 1 := by
        rw [List.length_take]
        omega
      have hcond : effective_list_limit f.limit
          < ((l2.take ((effective_list_limit f.limit).toNat + 1)).length : Int) := by
        rw [hrowlen]
        omega
      rw [collect_pages, hpage, if_pos hcond]
      have htt : (l2.take ((effective_list_limit f.limit).toNat + 1)).take
          (effective_list_limit f.limit).toNat
          = l2.take (effective_list_limit f.limit).toNat := by
        rw [List.take_take]
        congr 1
        omega
      rw [htt]
      have htne : l2.take (effective_list_limit f.limit).toNat ≠ [] := by
        have hlen2 : (l2.take (effective_list_limit f.limit).toNat).length
            = (effective_list_limit f.limit).toNat := by
          rw [List.length_take]
          omega
        intro hnil
        rw [hnil] at hlen2
        simp at hlen2
        omega
      rcases List.eq_nil_or_concat (l2.take (effective_list_limit f.limit).toNat)
        with hnil | ⟨ys, x, hyx⟩
      · exact absurd hnil htne
      rw [List.concat_eq_append] at hyx
      have hlast : (l2.take (effective_list_limit f.limit).toNat).getLast?.map
          (fun m => (m.created_at, m.id)) = some (x.created_at, x.id) := by
        rw [hyx, List.getLast?_concat]
        rfl
      rw [hlast]
      simp only
      have hsorted : List.Pairwise keyLt
          (List.insertionSort keyLe (db.filter (fun m => matches_filter f m))) :=
        pairwise_keyLt_of_sorted _
          (List.sorted_insertionSort keyLe _)
          ((List.Perm.nodup_iff ((List.perm_insertionSort keyLe _).map Memory.id)).mpr
            (List.Nodup.sublist (List.Sublist.map Memory.id (List.filter_sublist db)) hnd))
      have hdecomp2 : List.insertionSort keyLe (db.filter (fun m => matches_filter f m))
          = (l1 ++ ys) ++ x :: l2.drop (effective_list_limit f.limit).toNat := by
        rw [hdecomp]
        conv_lhs => rw [← List.take_append_drop (effective_list_limit f.limit).toNat l2]
        rw [hyx]
        simp
      have hcur : (List.insertionSort keyLe (db.filter (fun m => matches_filter f m))).filter
          (cursor_opt_matches (some (x.created_at, x.id)))
          = l2.drop (effective_list_limit f.limit).toNat :=
        filter_cursor_of_sorted _ hsorted _ _ _ hdecomp2
      have hrec := ih (some (x.created_at, x.id)) (l1 ++ ys ++ [x])
        (l2.drop (effective_list_limit f.limit).toNat)
        (by rw [hdecomp2]; simp) hcur
        (by rw [List.length_drop]; omega)
      rw [hrec]
      conv_rhs => rw [← List.take_append_drop (effective_list_limit f.limit).toNat l2]

/-- C4: for every filter and limit, walking `list` pages via the returned
keyset cursors until it is `None` concatenates to exactly the full sorted
listing (all rows matching the filter, ordered by `created_at DESC, id ASC`,
no limit); the concatenation is strictly ordered and duplicate-free; every
row of a cursor page satisfies
`created_at < cursor.ts OR (created_at = cursor.ts AND id > cursor.id)`;
and the requested limit is clamped to `[1, 100]`, bounding every page. -/
theorem keyset_pagination (db : List Memory) (f : ListFilterM)
    (hnd : (db.map Memory.id).Nodup) :
    collect_pages db f (db.length + 1) none
        = List.insertionSort keyLe (db.filter (fun m => matches_filter f m))
      ∧ List.Pairwise keyLt (collect_pages db f (db.length + 1) none)
      ∧ (collect_pages db f (db.length + 1) none).Nodup
      ∧ (∀ (c : Int × String) (m : Memory),
          m ∈ (list_model db { f with cursor := some c }).memories →
            cursor_matches c m = true)
      ∧ (1 ≤ effective_list_limit f.limit ∧ effective_list_limit f.limit ≤ 100)
      ∧ (((list_model db f).memories.length : Int)) ≤ effective_list_limit f.limit := by
  have hsorted : List.Pairwise keyLt
      (List.insertionSort keyLe (db.filter (fun m => matches_filter f m))) :=
    pairwise_keyLt_of_sorted _
      (List.sorted_insertionSort keyLe _)
      ((List.Perm.nodup_iff ((List.perm_insertionSort keyLe _).map Memory.id)).mpr
        (List.Nodup.sublist (List.Sublist.map Memory.id (List.filter_sublist db)) hnd))
  have hlen : (List.insertionSort keyLe (db.filter (fun m => matches_filter f m))).length
      < db.length + 1 := by
    have h1 := (List.perm_insertionSort keyLe
      (db.filter (fun m => matches_filter f m))).length_eq
    have h2 := List.length_filter_le (fun m => matches_filter f m) db
    omega
  have hmain := collect_pages_suffix db f hnd (db.length + 1) none []
    (List.insertionSort keyLe (db.filter (fun m => matches_filter f m)))
    (by simp) (by simp [cursor_opt_matches]) hlen
  refine ⟨hmain, ?_, ?_, ?_, ?_, ?_⟩
  · rw [hmain]; exact hsorted
  · rw [hmain]
    exact List.Pairwise.imp (fun h => by rintro rfl; exact keyLt_irrefl _ h) hsorted
  · intro c m hm
    exact (list_model_mem db { f with cursor := some c } m hm).2
  · exact ⟨le_max_right _ _, max_le (le_trans (min_le_right _ _) (by norm_num)) (by norm_num)⟩
  · exact list_model_length db f

/-- C4 witness: a two-row database paged with limit 1. -/
theorem keyset_pagination_witness :
    collect_pages [sampleMemory, { sampleMemory with id := "b", created_at := 50 }]
        ⟨none, none, none, none, none, none, 1, none⟩ 3 none
      = List.insertionSort keyLe
        (([sampleMemory, { sampleMemory with id := "b", created_at := 50 }]).filter
          (fun m => matches_filter ⟨none, none, none, none, none, none, 1, none⟩ m)) :=
  (keyset_pagination [sampleMemory, { sampleMemory with id := "b", created_at := 50 }]
    ⟨none, none, none, none, none, none, 1, none⟩ (by decide)).1

/-- C3 counterexample: for the query `"notes from today"` at the fixed now
2024-03-15 12:00:00 UTC, the parser returns only the start-of-day lower
bound (1710460800 = 2024-03-15T00:00:00Z) with `before = None` — not the
full UTC day boundaries (the claim requires
`before = 1710547199 = 2024-03-15T23:59:59Z`). -/
theorem temporal_today_counterexample :
    parse_temporal_hint "notes from today" ⟨2024, 3, 15, 12, 0, 0⟩
      = some { after := some 1710460800, before := none }
      ∧ parse_temporal_hint "notes from today" ⟨2024, 3, 15, 12, 0, 0⟩
        ≠ some { after := some 1710460800, before := some 1710547199 } := by
  exact ⟨by decide, by decide⟩

/-- C3 (amended): for every query string and every fixed `now`,
`parse_temporal_hint` returns exactly the range the spec documents for the
first matching pattern, to the second — with the one amendment that
`"today"` yields only the start-of-day lower bound (no `before` bound):
`"yesterday"` yields the full UTC day boundaries of the previous day;
`"last/past week|month|year"` yield `now` minus 7/30/365 days;
`"a few days|weeks|months ago"` yield the literal windows
`now-5d..now-1d`, `now-28d..now-7d`, `now-90d..now-30d`;
`"after YYYY-MM-DD"` / `"before YYYY-MM-DD"` yield inclusive bounds at
00:00:00 / 23:59:59 UTC; `"between MONTH and MONTH"` spans the start of the
first month to the end of the last month in the current year; the first
matching pattern wins, and with no match no time range is returned. -/
theorem temporal_hint_matches_spec (query : String) (now : CivilDateTime) :
    parse_temporal_hint query now = spec_temporal_range query now := by
  unfold parse_temporal_hint spec_temporal_range parse_absolute civil_to_epoch_sec
  dsimp only
  generalize List.map Char.toLower query.toList = q
  by_cases h1 : has_infix_chars q ("yesterday".toList) = true
  · simp only [if_pos h1, Option.some.injEq, TimeRange.mk.injEq, and_true, true_and]
    omega
  · simp only [if_neg h1]
    by_cases h2 : has_infix_chars q ("today".toList) = true
    · simp only [if_pos h2, Option.some.injEq, TimeRange.mk.injEq, and_true, true_and]
      omega
    · simp only [if_neg h2]
      by_cases h3 : (has_infix_chars q ("last week".toList)
          || has_infix_chars q ("past week".toList)) = true
      · simp only [if_pos h3, Option.some.injEq, TimeRange.mk.injEq, and_true, true_and]
        omega
      · simp only [if_neg h3]
        by_cases h4 : (has_infix_chars q ("last month".toList)
            || has_infix_chars q ("past month".toList)) = true
        · simp only [if_pos h4, Option.some.injEq, TimeRange.mk.injEq, and_true, true_and]
          omega
        · simp only [if_neg h4]
          by_cases h5 : (has_infix_chars q ("last year".toList)
              || has_infix_chars q ("past year".toList)) = true
          · simp only [if_pos h5, Option.some.injEq, TimeRange.mk.injEq, and_true, true_and]
            omega
          · simp only [if_neg h5]
            by_cases h6 : has_infix_chars q ("a few days ago".toList) = true
            · simp only [if_pos h6, Option.some.injEq, TimeRange.mk.injEq, and_true, true_and]
              omega
            · simp only [if_neg h6]
              by_cases h7 : has_infix_chars q ("a few weeks ago".toList) = true
              · simp only [if_pos h7, Option.some.injEq, TimeRange.mk.injEq, and_true,
                  true_and]
                omega
              · simp only [if_neg h7]
                by_cases h8 : has_infix_chars q ("a few months ago".toList) = true
                · simp only [if_pos h8, Option.some.injEq, TimeRange.mk.injEq, and_true,
                    true_and]
                  omega
                · simp only [if_neg h8]
                  cases hfa : find_kw_date ("after".toList) q with
                  | none =>
                    simp only [hfa]
                    cases hfb : find_kw_date ("before".toList) q with
                    | none => simp only [hfb]
                    | some ymd =>
                      simp only [hfb]
                      cases hv : is_valid_date ymd.1 ymd.2.1 ymd.2.2 with
                      | false => simp only [hv, Bool.false_eq_true, if_false]
                      | true =>
                        simp only [hv, if_true]
                        simp only [Option.some.injEq, TimeRange.mk.injEq, and_true, true_and]
                        omega
                  | some ymd =>
                    simp only [hfa]
                    cases hv : is_valid_date ymd.1 ymd.2.1 ymd.2.2 with
                    | false =>
                      simp only [hv, Bool.false_eq_true, if_false]
                      cases hfb : find_kw_date ("before".toList) q with
                      | none => simp only [hfb]
                      | some ymd2 =>
                        simp only [hfb]
                        cases hv2 : is_valid_date ymd2.1 ymd2.2.1 ymd2.2.2 with
                        | false => simp only [hv2, Bool.false_eq_true, if_false]
                        | true =>
                          simp only [hv2, if_true]
                          simp only [Option.some.injEq, TimeRange.mk.injEq, and_true,
                            true_and]
                          omega
                    | true =>
                      simp only [hv, if_true]
                      simp only [Option.some.injEq, TimeRange.mk.injEq, and_true, true_and]
                      omega

/-- C10: the effective `search_memory` result limit is the caller-supplied
limit clamped to `[1, 100]`, defaulting to 10 when absent; out-of-range
limits such as 0 or 1000 are clamped rather than rejected (the computation is
total — there is no error path). -/
theorem search_limit_clamped (limit : Option Nat) :
    1 ≤ effective_search_limit limit ∧ effective_search_limit limit ≤ 100
      ∧ effective_search_limit none = 10
      ∧ (∀ n : Nat, 1 ≤ n → n ≤ 100 → effective_search_limit (some n) = n)
      ∧ effective_search_limit (some 0) = 1
      ∧ effective_search_limit (some 1000) = 100 := by
  refine ⟨?_, ?_, rfl, fun n h1 h2 => ?_, rfl, rfl⟩ <;>
    · simp only [effective_search_limit, natClamp, Option.getD]
      split
      · omega
      · split <;> omega

/-- C10 witness: an in-range limit is kept as is. -/
theorem search_limit_clamped_witness : effective_search_limit (some 55) = 55 :=
  (search_limit_clamped (some 55)).2.2.2.1 55 (by decide) (by decide)

/-- C9: every rating other than the exact string `"easy"` (absent, `"good"`,
or arbitrary strings such as `"hard"`) is silently normalized to `"good"` and
yields the 1.5 stability multiplier; only `"easy"` yields 2.0; an
unrecognized rating never produces a validation error from
`reinforce_memory`. -/
theorem reinforce_rating_fallback :
    (∀ r : Option String, r ≠ some "easy" → normalize_rating r = "good")
      ∧ normalize_rating (some "easy") = "easy"
      ∧ (∀ r : Option String,
          rating_multiplier (normalize_rating r) = if r = some "easy" then 2 else 3 / 2)
      ∧ (∀ s e : ℝ, ∀ r : Option String, r ≠ some "easy" →
          reinforce_new_stability s e (normalize_rating r) = reinforce_new_stability s e "good")
      ∧ (∀ (db : List Memory) (id : String) (r : Option String),
          (db.find? (fun m => m.id = id)).isSome →
            reinforce_memory_gate db id r = .ok (normalize_rating r))
      ∧ (∀ (db : List Memory) (id : String) (r : Option String) (msg : String)
          (fld : Option String),
          reinforce_memory_gate db id r ≠ .error (.validation msg fld)) := by
  have hnorm : ∀ r : Option String, r ≠ some "easy" → normalize_rating r = "good" := by
    intro r hr
    cases r with
    | none => rfl
    | some s =>
      have hs : s ≠ "easy" := fun h => hr (by rw [h])
      simp [normalize_rating, hs]
  refine ⟨hnorm, rfl, ?_, ?_, ?_, ?_⟩
  · intro r
    by_cases h : r = some "easy"
    · subst h; simp [normalize_rating, rating_multiplier]
    · simp [hnorm r h, rating_multiplier, h]
  · intro s e r hr
    rw [hnorm r hr]
  · intro db id r h
    cases hf : db.find? (fun m => m.id = id) with
    | none => rw [hf] at h; simp at h
    | some m => simp [reinforce_memory_gate, hf]
  · intro db id r msg fld
    cases hf : db.find? (fun m => m.id = id) <;> simp [reinforce_memory_gate, hf]

/-- C9 witness: the invalid rating `"hard"` on an existing memory is treated
as `"good"`. -/
theorem reinforce_rating_fallback_witness :
    normalize_rating (some "hard") = "good"
      ∧ reinforce_memory_gate [sampleMemory] "a" (some "hard") = .ok (normalize_rating (some "hard")) :=
  ⟨reinforce_rating_fallback.1 (some "hard") (by decide),
    reinforce_rating_fallback.2.2.2.2.1 [sampleMemory] "a" (some "hard") (by decide)⟩

/-- C8: `search_memory` fails with the `Validation` error "At least one
search path must be enabled ..." exactly when all three weights are exactly
zero (in which case no leg is executed — the error return precedes
`hybrid_search`); with at least one weight non-zero or absent it proceeds
with the per-leg k values `base_k / w`. -/
theorem all_legs_disabled_validation (bw vw sw : Option ℚ) :
    ((bw = some 0 ∧ vw = some 0 ∧ sw = some 0) ↔
      search_leg_plan bw vw sw = .error (.validation
        "At least one search path must be enabled (bm25_weight, vector_weight, or symbolic_weight must be non-zero)"
        none))
      ∧ ((bw ≠ some 0 ∨ vw ≠ some 0 ∨ sw ≠ some 0) →
        search_leg_plan bw vw sw =
          .ok (weight_to_k bw 60, weight_to_k vw 60, weight_to_k sw 40)) := by
  have key : ∀ (w : Option ℚ) (b : ℚ), (weight_to_k w b).isNone = true ↔ w = some 0 := by
    intro w b
    cases w with
    | none => simp [weight_to_k]
    | some x =>
      by_cases hx : x = 0 <;> simp [weight_to_k, hx]
  constructor
  · constructor
    · rintro ⟨h1, h2, h3⟩
      subst h1; subst h2; subst h3
      simp [search_leg_plan, weight_to_k]
    · intro h
      by_contra hall
      have hcond : ¬((weight_to_k bw 60).isNone && (weight_to_k vw 60).isNone
          && (weight_to_k sw 40).isNone) = true := by
        intro hc
        simp only [Bool.and_eq_true] at hc
        exact hall ⟨(key bw 60).mp hc.1.1, (key vw 60).mp hc.1.2, (key sw 40).mp hc.2⟩
      simp only [search_leg_plan, if_neg hcond] at h
      exact Except.noConfusion h
  · intro h
    have hcond : ¬((weight_to_k bw 60).isNone && (weight_to_k vw 60).isNone
        && (weight_to_k sw 40).isNone) = true := by
      intro hc
      simp only [Bool.and_eq_true] at hc
      rcases h with h | h | h
      · exact h ((key bw 60).mp hc.1.1)
      · exact h ((key vw 60).mp hc.1.2)
      · exact h ((key sw 40).mp hc.2)
    simp only [search_leg_plan, if_neg hcond]

/-- C8 witness: all-zero weights produce the validation error, and default
(absent) weights proceed with the base k values. -/
theorem all_legs_disabled_validation_witness :
    search_leg_plan (some 0) (some 0) (some 0) = .error (.validation
      "At least one search path must be enabled (bm25_weight, vector_weight, or symbolic_weight must be non-zero)"
      none)
      ∧ search_leg_plan none none none = .ok (some 60, some 60, some 40) :=
  ⟨(all_legs_disabled_validation (some 0) (some 0) (some 0)).1.mp ⟨rfl, rfl, rfl⟩,
    (all_legs_disabled_validation none none none).2 (Or.inl (by decide))⟩

/-- C6: `store_memory` fails with a `Validation` error and persists nothing
when the content is empty after trimming; with non-empty trimmed content it
persists and returns a memory with `access_count = 0` and both
`embedding_status` and `extraction_status` equal to `"pending"`. -/
theorem store_validation (db : List Memory) (p : StoreMemoryParams) (new_id : String)
    (now : Int) :
    ((trim_chars p.content.toList).isEmpty = true →
      store_memory_model db p new_id now =
        (db, .error (.validation "Field content is required and cannot be empty" (some "content"))))
      ∧ ((trim_chars p.content.toList).isEmpty = false →
        ∃ m : Memory, store_memory_model db p new_id now = (db ++ [m], .ok m)
          ∧ m.access_count = 0 ∧ m.embedding_status = "pending"
          ∧ m.extraction_status = "pending") := by
  constructor
  · intro h
    have h2 : trim_chars p.content.data = [] := List.isEmpty_iff.mp h
    simp [store_memory_model, h, h2]
  · intro h
    simp only [store_memory_model, h, Bool.false_eq_true, if_false]
    exact ⟨_, rfl, rfl, rfl, rfl⟩

/-- C6 witness: whitespace-only content is rejected with the database left
unchanged; real content is stored with the pending statuses. -/
theorem store_validation_witness :
    store_memory_model [] ⟨"  ", none, none, none⟩ "id0" 5 =
      ([], .error (.validation "Field content is required and cannot be empty" (some "content")))
      ∧ (∃ m : Memory, store_memory_model [] ⟨"hi", none, none, none⟩ "id0" 5 = ([] ++ [m], .ok m)
          ∧ m.access_count = 0 ∧ m.embedding_status = "pending"
          ∧ m.extraction_status = "pending") :=
  ⟨(store_validation [] ⟨"  ", none, none, none⟩ "id0" 5).1 (by decide),
    (store_validation [] ⟨"hi", none, none, none⟩ "id0" 5).2 (by decide)⟩

/-- C7 counterexample: an update whose patch re-assigns `content` its current
value (so no field actually changes) still bumps `updated_at` — the UPDATE's
SET clause always assigns `updated_at` — contradicting the claim that
`updated_at` is left unchanged in that case. -/
theorem update_bump_counterexample :
    (update_memory_model [sampleMemory] "a" ⟨some "Rust is great", none, none, none⟩ 200).2 =
      .ok { sampleMemory with updated_at := 200 }
      ∧ ({ sampleMemory with updated_at := 200 } : Memory).updated_at ≠ sampleMemory.updated_at := by
  exact ⟨rfl, by decide⟩

/-- C7 (amended): `update` on an existing memory always sets `updated_at` to
the call time — even when the patch leaves every field with its current
value — while all fields not named in the patch keep their previous values
and named fields take the patch values. -/
theorem update_always_bumps (db : List Memory) (id : String) (input : UpdateMemoryInput)
    (now : Int) (old : Memory) (h : db.find? (fun m => m.id = id) = some old) :
    ∃ u : Memory, (update_memory_model db id input now).2 = .ok u
      ∧ u.updated_at = now
      ∧ u.id = old.id
      ∧ u.created_at = old.created_at
      ∧ u.access_count = old.access_count
      ∧ u.last_accessed_at = old.last_accessed_at
      ∧ u.embedding_status = old.embedding_status
      ∧ u.extraction_status = old.extraction_status
      ∧ u.is_consolidated_original = old.is_consolidated_original
      ∧ u.consolidated_into = old.consolidated_into
      ∧ (input.content = none → u.content = old.content)
      ∧ (∀ c, input.content = some c → u.content = c)
      ∧ (input.type_hint = none → u.type_hint = old.type_hint)
      ∧ (∀ t, input.type_hint = some t → u.type_hint = t)
      ∧ (input.source = none → u.source = old.source)
      ∧ (∀ s, input.source = some s → u.source = s)
      ∧ (input.tags = none → u.tags = old.tags)
      ∧ (∀ ts, input.tags = some ts → u.tags = some ts) := by
  simp only [update_memory_model, h]
  refine ⟨_, rfl, rfl, rfl, rfl, rfl, rfl, rfl, rfl, rfl, rfl, ?_, ?_, ?_, ?_, ?_, ?_, ?_, ?_⟩
  · intro hc; simp [hc]
  · intro c hc; simp [hc]
  · intro ht; simp [ht]
  · intro t ht; simp [ht]
  · intro hs; simp [hs]
  · intro s hs; simp [hs]
  · intro ht; simp [ht]
  · intro ts ht; simp [ht]

/-- C7 witness: a patch that changes only the source leaves the other fields
alone and stamps `updated_at` with the call time. -/
theorem update_always_bumps_witness :
    ∃ u : Memory, (update_memory_model [sampleMemory] "a" ⟨none, none, some "user", none⟩ 300).2 =
      .ok u
      ∧ u.updated_at = 300
      ∧ u.id = sampleMemory.id
      ∧ u.created_at = sampleMemory.created_at
      ∧ u.access_count = sampleMemory.access_count
      ∧ u.last_accessed_at = sampleMemory.last_accessed_at
      ∧ u.embedding_status = sampleMemory.embedding_status
      ∧ u.extraction_status = sampleMemory.extraction_status
      ∧ u.is_consolidated_original = sampleMemory.is_consolidated_original
      ∧ u.consolidated_into = sampleMemory.consolidated_into
      ∧ ((⟨none, none, some "user", none⟩ : UpdateMemoryInput).content = none →
          u.content = sampleMemory.content)
      ∧ (∀ c, (⟨none, none, some "user", none⟩ : UpdateMemoryInput).content = some c →
          u.content = c)
      ∧ ((⟨none, none, some "user", none⟩ : UpdateMemoryInput).type_hint = none →
          u.type_hint = sampleMemory.type_hint)
      ∧ (∀ t, (⟨none, none, some "user", none⟩ : UpdateMemoryInput).type_hint = some t →
          u.type_hint = t)
      ∧ ((⟨none, none, some "user", none⟩ : UpdateMemoryInput).source = none →
          u.source = sampleMemory.source)
      ∧ (∀ s, (⟨none, none, some "user", none⟩ : UpdateMemoryInput).source = some s →
          u.source = s)
      ∧ ((⟨none, none, some "user", none⟩ : UpdateMemoryInput).tags = none →
          u.tags = sampleMemory.tags)
      ∧ (∀ ts, (⟨none, none, some "user", none⟩ : UpdateMemoryInput).tags = some ts →
          u.tags = some ts) :=
  update_always_bumps [sampleMemory] "a" ⟨none, none, some "user", none⟩ 300 sampleMemory
    (by decide)

end Memcp
